import Mathlib

set_option maxRecDepth 1000000

set_option allowUnsafeReducibility true

attribute [local semireducible] Rat.add Rat.mul Rat.sub Rat.inv Rat.ofScientific

/-!
Verification of the Turtle trading strategy (`turtle_trader_strategy.py`)
against its specification.

The price table is embedded as three parallel lists of rationals
(high, low, close).  Indicator series follow the pandas semantics of the
source: a rolling window of size `w` has a defined value at index `i`
exactly when `w ≤ i + 1` and `i` is in range (otherwise the value is NaN,
embedded as `none`; a NaN compares as false against everything, which the
`Option` encoding reproduces because `some price = none` is false).

The simulation engine itself (the `backtesting` library) is not part of
the repository; following the specification (sections 4.3 and 4.4), the
engine applies the strategy's actions to the ledger synchronously at the
decision bar: exits are settled first, at the current close, and the
entry check runs on the post-exit ledger ("only if FLAT after the exit
check").  The strategy logic inside each bar is translated directly from
`TurtleStrategy.next`.
-/

namespace Turtle

/-- One instrument's price table: parallel lists of highs, lows and closes. -/
structure PriceData where
  high : List ℚ
  low : List ℚ
  close : List ℚ
deriving DecidableEq

/-- The trailing window of width `w` ending at index `i` (inclusive), as used
by `pandas.Series.rolling(w)` at position `i`. -/
def window (xs : List ℚ) (w i : ℕ) : List ℚ :=
  (xs.take (i + 1)).drop (i + 1 - w)

/-- Maximum of a list of rationals (`none` on the empty list), as `np.max`. -/
def listMax : List ℚ → Option ℚ
  | [] => none
  | x :: xs => some (xs.foldl max x)

/-- Minimum of a list of rationals (`none` on the empty list). -/
def listMin : List ℚ → Option ℚ
  | [] => none
  | x :: xs => some (xs.foldl min x)

/-- `Close.rolling(w).max()` at index `i`: defined once `w` bars are
available, NaN (`none`) before. -/
def rollingMax (xs : List ℚ) (w i : ℕ) : Option ℚ :=
  if w ≤ i + 1 ∧ i < xs.length then listMax (window xs w i) else none

/-- `Close.rolling(w).min()` at index `i`. -/
def rollingMin (xs : List ℚ) (w i : ℕ) : Option ℚ :=
  if w ≤ i + 1 ∧ i < xs.length then listMin (window xs w i) else none

/-- `calc_TR(high, low, close)` from the source, applied to arrays:
`np.max(np.abs([high-low, close-low, low-close]))`, the largest absolute
value among the three elementwise difference arrays. -/
def calc_TR (high low close : List ℚ) : Option ℚ :=
  listMax (high.zipWith (fun h l => |h - l|) low
    ++ close.zipWith (fun c l => |c - l|) low
    ++ low.zipWith (fun l c => |l - c|) close)

/-- Strategy parameters (the class attributes of `TurtleStrategy`, plus the
engine parameters passed to `Backtest`). -/
structure Config where
  sys1_entry : ℕ
  sys1_exit : ℕ
  sys2_entry : ℕ
  sys2_exit : ℕ
  atr_periods : ℕ
  risk_level : ℚ
  r_max : ℚ
  unit_limit : ℕ
  starting_cash : ℚ
  commission : ℚ
deriving DecidableEq

/-- The source's parameter values: 20/10/55/20 channels, 20-bar ATR,
`risk_level = 2`, `r_max = 0.02`, `unit_limit = 5`, cash 10000,
commission 0.002. -/
def defaultConfig : Config :=
  { sys1_entry := 20, sys1_exit := 10, sys2_entry := 55, sys2_exit := 20
    atr_periods := 20, risk_level := 2, r_max := 2/100, unit_limit := 5
    starting_cash := 10000, commission := 2/1000 }

/-- The scalar computed by the body of the ATR lambda in `init`:
`calc_TR(self.data.High[-atr_periods:], self.data.Low[-atr_periods:],
self.data.Close[-atr_periods:])`.  Note that inside `init` `self.data` is
the FULL price table, so this reads the last `atr_periods` bars of the
whole series, independently of the rolling position. -/
def atrScalar (cfg : Config) (d : PriceData) : Option ℚ :=
  calc_TR (d.high.drop (d.high.length - cfg.atr_periods))
    (d.low.drop (d.low.length - cfg.atr_periods))
    (d.close.drop (d.close.length - cfg.atr_periods))

/-- The series `Close.rolling(atr_periods).apply(lambda x: calc_TR(...))` at
index `i`: the applied function ignores its window argument `x` and
returns `atrScalar`, so every defined entry is that same scalar. -/
def atrRollingApply (cfg : Config) (d : PriceData) (i : ℕ) : Option ℚ :=
  if cfg.atr_periods ≤ i + 1 ∧ i < d.close.length then atrScalar cfg d else none

/-- `pandas.Series.mean()`: the mean of the non-NaN entries (NaN if none). -/
def meanOpt (xs : List (Option ℚ)) : Option ℚ :=
  let vs := xs.filterMap id
  if vs = [] then none else some (vs.sum / (vs.length : ℚ))

/-- `self.atr` as registered in `init`: the rolling-apply series collapsed by
the trailing `.mean()` to a single scalar, which is therefore the ATR value
the strategy consults on every bar. -/
def atrVal (cfg : Config) (d : PriceData) : Option ℚ :=
  meanOpt ((List.range d.close.length).map (atrRollingApply cfg d))

/-- An open position.  The fields mirror the `Trade` data the strategy
consults (`is_long`, `entry_price`, `size`, `sl`); `sys1` is a ghost flag
recording whether the position was created by a system-1 entry branch
(the source does not store this, but the specification speaks about it). -/
structure Position where
  isLong : Bool
  entry : ℚ
  size : ℚ
  sl : ℚ
  sys1 : Bool
deriving DecidableEq

/-- A closed-trade ledger record. -/
structure ClosedTrade where
  isLong : Bool
  entry : ℚ
  exitPrice : ℚ
  size : ℚ
  pnl : ℚ
deriving DecidableEq

/-- Modelled from the spec: closing a position appends a closed-trade record
with realized P&L `(exit - entry) * size * sign(direction)` minus the
transaction cost (commission charged on both legs' notional). -/
def closeTrade (cfg : Config) (price : ℚ) (p : Position) : ClosedTrade :=
  { isLong := p.isLong, entry := p.entry, exitPrice := price, size := p.size
    pnl := (price - p.entry) * p.size * (if p.isLong then 1 else -1)
      - cfg.commission * p.size * (p.entry + price) }

/-- The whole strategy/ledger state threaded bar by bar. -/
structure StratState where
  trades : List Position
  lastS1Win : Bool
  equity : ℚ
  closed : List ClosedTrade
deriving DecidableEq

/-- `TurtleStrategy._size_position`:
`np.floor(self.r_max * self.equity / (self.risk_level * atr))`. -/
def _size_position (cfg : Config) (equity atr : ℚ) : ℚ :=
  ((Rat.floor (cfg.r_max * equity / (cfg.risk_level * atr)) : ℤ) : ℚ)

/-- `self.data.Close[-1]` at bar `i`. -/
def priceAt (d : PriceData) (i : ℕ) : ℚ :=
  d.close.getD i 0

/-- The per-trade exit test of `next` (lines 42-48): a long closes when
`price <= trade.sl` or price equals the system-1 or system-2 long exit
channel; a short is symmetric with the rolling maxima. -/
def exitCond (cfg : Config) (d : PriceData) (i : ℕ) (p : Position) : Bool :=
  let price := priceAt d i
  if p.isLong then
    decide (price ≤ p.sl ∨ rollingMin d.close cfg.sys1_exit i = some price
      ∨ rollingMin d.close cfg.sys2_exit i = some price)
  else
    decide (p.sl ≤ price ∨ rollingMax d.close cfg.sys1_exit i = some price
      ∨ rollingMax d.close cfg.sys2_exit i = some price)

/-- The exit phase of a bar: every open trade satisfying `exitCond` is
closed at the current close price, realizing its P&L into equity and
appending it to the closed-trade ledger. -/
def exitPhase (cfg : Config) (d : PriceData) (i : ℕ) (s : StratState) : StratState :=
  let exiting := s.trades.filter (fun p => exitCond cfg d i p)
  { trades := s.trades.filter (fun p => !exitCond cfg d i p)
    lastS1Win := s.lastS1Win
    equity := s.equity + ((exiting.map (fun p => (closeTrade cfg (priceAt d i) p).pnl)).sum)
    closed := s.closed ++ exiting.map (closeTrade cfg (priceAt d i)) }

/-- A freshly opened position: entry at `price`, size from
`_size_position`, stop `price ∓ risk_level * atr` (lines 53/56/61/63/70/72). -/
def mkPos (cfg : Config) (isLong : Bool) (price a equity : ℚ) (s1tag : Bool) : Position :=
  { isLong := isLong, entry := price, size := _size_position cfg equity a
    sl := if isLong then price - cfg.risk_level * a else price + cfg.risk_level * a
    sys1 := s1tag }

/-- The pyramiding loop (lines 67-72): iterate over the open trades; while
fewer than `unit_limit` positions are open, a trade whose entry price has
been bettered by one ATR in its direction triggers one further unit.  The
accumulator is the live trade list the new unit is appended to. -/
def pyramid (cfg : Config) (price a equity : ℚ) : List Position → List Position → List Position
  | [], acc => acc
  | t :: rest, acc =>
    if acc.length < cfg.unit_limit then
      if t.isLong = true ∧ t.entry + a ≤ price then
        pyramid cfg price a equity rest (acc ++ [mkPos cfg true price a equity t.sys1])
      else if t.isLong = false ∧ price ≤ t.entry - a then
        pyramid cfg price a equity rest (acc ++ [mkPos cfg false price a equity t.sys1])
      else pyramid cfg price a equity rest acc
    else pyramid cfg price a equity rest acc

/-- One call of `TurtleStrategy.next` at bar `i`, with the engine applying
actions synchronously: first the exit loop, then — if flat — the
`if/elif` entry chain (system 1 guarded by `not self.last_s1_win`, then
system 2), otherwise the pyramiding loop over the open trades. -/
def stepBar (cfg : Config) (d : PriceData) (i : ℕ) (s : StratState) : StratState :=
  let price := priceAt d i
  let s1 := exitPhase cfg d i s
  let a := (atrVal cfg d).getD 0
  if s1.trades.isEmpty then
    if rollingMax d.close cfg.sys1_entry i = some price ∧ s1.lastS1Win = false then
      { s1 with trades := [mkPos cfg true price a s1.equity true], lastS1Win := false }
    else if rollingMin d.close cfg.sys1_entry i = some price ∧ s1.lastS1Win = false then
      { s1 with trades := [mkPos cfg false price a s1.equity true], lastS1Win := false }
    else if rollingMax d.close cfg.sys2_entry i = some price then
      { s1 with trades := [mkPos cfg true price a s1.equity false] }
    else if rollingMin d.close cfg.sys2_entry i = some price then
      { s1 with trades := [mkPos cfg false price a s1.equity false] }
    else s1
  else
    { s1 with trades := pyramid cfg price a s1.equity s1.trades s1.trades }

/-- The state after `init` ran: no trades, `last_s1_win = False` (line 37,
overwriting whatever value `carried` the strategy object held before),
starting cash, empty ledger. -/
def initState (cfg : Config) (_carried : Bool) : StratState :=
  { trades := [], lastS1Win := false, equity := cfg.starting_cash, closed := [] }

/-- The largest indicator lookback window of the configuration. -/
def maxWindow (cfg : Config) : ℕ :=
  max (max (max cfg.sys1_entry cfg.sys1_exit) (max cfg.sys2_entry cfg.sys2_exit)) cfg.atr_periods

/-- Modelled from the spec (section 4.4): the bar-by-bar replay starts once
all required indicator windows are populated. -/
def startBar (cfg : Config) : ℕ :=
  maxWindow cfg - 1

/-- The strategy state after the first `k` processed bars
(bars `startBar, startBar+1, …, startBar+k-1`), starting from a strategy
object that carried the boolean flag `c` before `init` reset it. -/
def stateAtFrom (cfg : Config) (d : PriceData) (c : Bool) (k : ℕ) : StratState :=
  (List.range' (startBar cfg) k).foldl (fun s i => stepBar cfg d i s) (initState cfg c)

/-- Errors of the simulation, modelled from the spec's taxonomy (section 7). -/
inductive SimError where
  | insufficientData
deriving DecidableEq

/-- Modelled from the spec: the statistics report, a pure function of the
closed-trade ledger (trade count, winners, net realized P&L). -/
structure Stats where
  tradeCount : ℕ
  winners : ℕ
  netPnl : ℚ
deriving DecidableEq

/-- Modelled from the spec (section 4.5): statistics are computed once, at
the end, from the closed-trade ledger. -/
def computeStats (closed : List ClosedTrade) : Stats :=
  { tradeCount := closed.length
    winners := (closed.filter (fun c => decide (0 < c.pnl))).length
    netPnl := (closed.map (fun c => c.pnl)).sum }

/-- Modelled from the spec: `run_backtest` validates that the series is at
least as long as the largest indicator window (`InsufficientDataError`
otherwise, section 4.4/7 — the validation is specified but absent from the
source, which delegates to the external engine), then replays every bar
and reports the ledger and statistics.  The `carried` flag is whatever
`last_s1_win` value the strategy class held before `init` ran. -/
def runBacktestCarry (cfg : Config) (d : PriceData) (carried : Bool) :
    Except SimError (List ClosedTrade × Stats) :=
  if d.close.length < maxWindow cfg then
    .error .insufficientData
  else
    let final := stateAtFrom cfg d carried (d.close.length - startBar cfg)
    .ok (final.closed, computeStats final.closed)

/-- `run_backtest(data)` with a fresh strategy class. -/
def run_backtest (cfg : Config) (d : PriceData) : Except SimError (List ClosedTrade × Stats) :=
  runBacktestCarry cfg d false

/-! ## Specification-side definitions

These definitions render sentences of the specification (not the source);
each is compared against the source-side definitions above. -/

/-- The exit rule as the specification states it: a position is closed
exactly when its stop-loss is breached by the current price, or the price
reaches the exit channel boundary of the system under which that position
was opened — the system-1 channel for a system-1 position, the system-2
channel for a system-2 position, never the other system's channel. -/
def exitSpecProp (cfg : Config) (d : PriceData) (i : ℕ) (p : Position) : Prop :=
  let price := priceAt d i
  if p.isLong then
    price ≤ p.sl
      ∨ (p.sys1 = true ∧ rollingMin d.close cfg.sys1_exit i = some price)
      ∨ (p.sys1 = false ∧ rollingMin d.close cfg.sys2_exit i = some price)
  else
    p.sl ≤ price
      ∨ (p.sys1 = true ∧ rollingMax d.close cfg.sys1_exit i = some price)
      ∨ (p.sys1 = false ∧ rollingMax d.close cfg.sys2_exit i = some price)

/-- Modelled from the spec:
`TR_t = max(high_t - low_t, |high_t - close_(t-1)|, |low_t - close_(t-1)|)`
(only used for `t ≥ 1`, where the previous close exists). -/
def specTR (d : PriceData) (t : ℕ) : ℚ :=
  max (d.high.getD t 0 - d.low.getD t 0)
    (max |d.high.getD t 0 - d.close.getD (t - 1) 0| |d.low.getD t 0 - d.close.getD (t - 1) 0|)

/-- Modelled from the spec: the ATR at index `t` is the mean of the per-bar
True Range over the trailing `w` bars (defined once every bar of the window
has a previous close, i.e. for `w ≤ t`). -/
def specATR (w : ℕ) (d : PriceData) (t : ℕ) : Option ℚ :=
  if w ≤ t ∧ t < d.close.length then
    some ((((List.range' (t + 1 - w) w).map (specTR d)).sum) / (w : ℚ))
  else none

/-- Two price tables agree on all bars `0..i`. -/
def agreesUpTo (d1 d2 : PriceData) (i : ℕ) : Prop :=
  d1.high.take (i + 1) = d2.high.take (i + 1)
    ∧ d1.low.take (i + 1) = d2.low.take (i + 1)
    ∧ d1.close.take (i + 1) = d2.close.take (i + 1)

instance (d1 d2 : PriceData) (i : ℕ) : Decidable (agreesUpTo d1 d2 i) := by
  unfold agreesUpTo
  infer_instance

/-- The most recently closed trade exists and was a loss (negative realized
P&L) — the reading of "the previous system-1 trade was a loss" on the
ledger. -/
def prevTradeLoss (s : StratState) : Bool :=
  match s.closed.getLast? with
  | some c => decide (c.pnl < 0)
  | none => false

/-- Claim C4 as stated: on a bar where the strategy is flat after the exit
check, a system-1 channel touch together with a losing previous trade
means the system-1 entry is skipped (no position is opened). -/
def C4_claim_statement : Prop :=
  ∀ d k,
    (exitPhase defaultConfig d (startBar defaultConfig + k)
        (stateAtFrom defaultConfig d false k)).trades = [] →
    prevTradeLoss (exitPhase defaultConfig d (startBar defaultConfig + k)
        (stateAtFrom defaultConfig d false k)) = true →
    (rollingMax d.close defaultConfig.sys1_entry (startBar defaultConfig + k)
        = some (priceAt d (startBar defaultConfig + k))
      ∨ rollingMin d.close defaultConfig.sys1_entry (startBar defaultConfig + k)
        = some (priceAt d (startBar defaultConfig + k))) →
    (stepBar defaultConfig d (startBar defaultConfig + k)
        (stateAtFrom defaultConfig d false k)).trades = []

/-- Follows the amended claim's words: when the strategy is flat, the
system-1 channel touch opens a position (long on the rolling high, short on
the rolling low, stop `price ∓ risk_level * ATR`) unless the last-trade
filter flag `last_s1_win` is set (previous system-1 trade recorded as a
win), in which case system 1 is skipped; the system-2 channel touch is
consulted only when no system-1 entry fired. -/
def entryAmended (cfg : Config) (d : PriceData) (i : ℕ) (equity : ℚ) (lastWin : Bool) :
    List Position :=
  let price := priceAt d i
  let a := (atrVal cfg d).getD 0
  if lastWin = false ∧ rollingMax d.close cfg.sys1_entry i = some price then
    [mkPos cfg true price a equity true]
  else if lastWin = false ∧ rollingMin d.close cfg.sys1_entry i = some price then
    [mkPos cfg false price a equity true]
  else if rollingMax d.close cfg.sys2_entry i = some price then
    [mkPos cfg true price a equity false]
  else if rollingMin d.close cfg.sys2_entry i = some price then
    [mkPos cfg false price a equity false]
  else []

/-- Price has moved one ATR in the favorable direction from the entry of
position `t`. -/
def favorableMove (t : Position) (price a : ℚ) : Prop :=
  if t.isLong then t.entry + a ≤ price else price ≤ t.entry - a

instance (t : Position) (price a : ℚ) : Decidable (favorableMove t price a) := by
  unfold favorableMove
  infer_instance

/-- The most recent open unit exists and price has moved one ATR favorably
since its entry. -/
def lastUnitMoved (trades : List Position) (price a : ℚ) : Bool :=
  match trades.getLast? with
  | some t => decide (favorableMove t price a)
  | none => false

/-- Claim C5 as stated: with an open position and open count below
`unit_limit`, at most one unit is added per bar, and a unit is added only
when price has moved one ATR favorably since the entry of the most recent
unit. -/
def C5_claim_statement : Prop :=
  ∀ d k,
    (exitPhase defaultConfig d (startBar defaultConfig + k)
        (stateAtFrom defaultConfig d false k)).trades ≠ [] →
    ((stepBar defaultConfig d (startBar defaultConfig + k)
          (stateAtFrom defaultConfig d false k)).trades.length
        ≤ (exitPhase defaultConfig d (startBar defaultConfig + k)
            (stateAtFrom defaultConfig d false k)).trades.length + 1
      ∧ ((exitPhase defaultConfig d (startBar defaultConfig + k)
            (stateAtFrom defaultConfig d false k)).trades.length
          < (stepBar defaultConfig d (startBar defaultConfig + k)
              (stateAtFrom defaultConfig d false k)).trades.length →
        lastUnitMoved (exitPhase defaultConfig d (startBar defaultConfig + k)
            (stateAtFrom defaultConfig d false k)).trades
          (priceAt d (startBar defaultConfig + k))
          ((atrVal defaultConfig d).getD 0) = true))

/-- Follows the amended claim's words: the pyramiding pass scans every open
trade in order, keeping a running count of open units; each trade from
whose entry price has moved one ATR favorably contributes one further unit
(entry at the current price, freshly computed stop), as long as the
running count is below `unit_limit` — so several units can be added on one
bar, keyed to each qualifying trade, not only the most recent one. -/
def pyramidAmended (cfg : Config) (price a equity : ℚ) : List Position → ℕ → List Position
  | [], _ => []
  | t :: rest, cnt =>
    if cnt < cfg.unit_limit then
      if t.isLong = true ∧ t.entry + a ≤ price then
        mkPos cfg true price a equity t.sys1 :: pyramidAmended cfg price a equity rest (cnt + 1)
      else if t.isLong = false ∧ price ≤ t.entry - a then
        mkPos cfg false price a equity t.sys1 :: pyramidAmended cfg price a equity rest (cnt + 1)
      else pyramidAmended cfg price a equity rest cnt
    else pyramidAmended cfg price a equity rest cnt

/-- Modelled from the spec: `size = floor(risk_fraction * current_equity /
(risk_level * ATR))`. -/
def sizeSpec (risk_fraction equity risk_level atrv : ℚ) : ℚ :=
  ((⌊risk_fraction * equity / (risk_level * atrv)⌋ : ℤ) : ℚ)

/-! ## Concrete price tables used as witnesses and counterexamples -/

/-- Strictly rising closes `100, 101, …, 100+n-1`. -/
def risingCloses (n : ℕ) : List ℚ :=
  (List.range n).map (fun j => 100 + (j : ℚ))

/-- A table whose high equals the close and whose low sits one point below
it, so every bar's true range (and the source's `calc_TR` scalar) is 1. -/
def mkData (closes : List ℚ) : PriceData :=
  { high := closes, low := closes.map (fun x => x - 1), close := closes }

/-- 56 bars: 55 rising closes then 155.  A system-1 long entry fires at bar
54 (close 154 touches the 20-bar rolling high); the position stays open at
bar 55. -/
def wD3 : PriceData := mkData (risingCloses 55 ++ [155])

/-- 57 bars: 55 rising closes, then a crash to 145 (bar 55, stopping the
long out at a loss) and a fresh 20-bar-high touch at 155 (bar 56). -/
def wD4 : PriceData := mkData (risingCloses 55 ++ [145, 155])

/-- 57 bars: 55 rising closes, then 155 and 155.5.  Entry at 154 (bar 54),
one pyramid unit at 155 (bar 55); at bar 56 the price 155.5 clears the
first unit's entry by one ATR but not the most recent unit's. -/
def wD5 : PriceData := mkData (risingCloses 55 ++ [155, 155 + 1/2])

/-- 21 constant bars (high 100, low 99, close 100). -/
def dLook : PriceData :=
  { high := List.replicate 21 100, low := List.replicate 21 99, close := List.replicate 21 100 }

/-- Identical to `dLook` on bars 0..19, but bar 20's low drops to 90. -/
def dLook2 : PriceData :=
  { high := List.replicate 21 100, low := List.replicate 20 99 ++ [90]
    close := List.replicate 21 100 }

/-- 21 bars, constant closes and highs at 100, lows at 99 except bar 1,
whose low is 79 (one wide-range bar inside the window). -/
def dTR : PriceData :=
  { high := List.replicate 21 100, low := 99 :: 79 :: List.replicate 19 99
    close := List.replicate 21 100 }

/-- A 10-bar table, shorter than every entry window. -/
def dShort : PriceData := mkData (risingCloses 10)

/-- Strictly falling closes `100, 99, …, 100-(n-1)`. -/
def fallingCloses (n : ℕ) : List ℚ :=
  (List.range n).map (fun j => 100 - (j : ℚ))

/-- 55 falling bars: at bar 54 the close 46 touches the 20-bar rolling low
(system-1 short entry condition) and not the rolling high. -/
def wD10s : PriceData := mkData (fallingCloses 55)

/-! ## List extremum and rolling-window lemmas -/

theorem foldl_min_le_init (l : List ℚ) (a : ℚ) : l.foldl min a ≤ a := by
  induction l generalizing a with
  | nil => exact le_refl a
  | cons x xs ih =>
    rw [List.foldl_cons]
    exact le_trans (ih (min a x)) (min_le_left a x)

theorem foldl_min_le_of_mem (l : List ℚ) (a x : ℚ) (hx : x ∈ l) : l.foldl min a ≤ x := by
  induction l generalizing a with
  | nil => cases hx
  | cons y ys ih =>
    rw [List.foldl_cons]
    rcases List.mem_cons.mp hx with h | h
    · subst h
      exact le_trans (foldl_min_le_init ys (min a x)) (min_le_right a x)
    · exact ih (min a y) h

theorem foldl_min_eq_or_mem (l : List ℚ) (a : ℚ) : l.foldl min a = a ∨ l.foldl min a ∈ l := by
  induction l generalizing a with
  | nil => exact Or.inl rfl
  | cons y ys ih =>
    rw [List.foldl_cons]
    rcases ih (min a y) with h | h
    · rcases min_choice a y with hm | hm
      · exact Or.inl (h.trans hm)
      · exact Or.inr (List.mem_cons.mpr (Or.inl (h.trans hm)))
    · exact Or.inr (List.mem_cons.mpr (Or.inr h))

theorem listMin_le (l : List ℚ) (m x : ℚ) (hm : listMin l = some m) (hx : x ∈ l) : m ≤ x := by
  cases l with
  | nil => cases hm
  | cons y ys =>
    cases hm
    rcases List.mem_cons.mp hx with h | h
    · subst h
      exact foldl_min_le_init ys x
    · exact foldl_min_le_of_mem ys y x h

theorem listMin_mem (l : List ℚ) (m : ℚ) (hm : listMin l = some m) : m ∈ l := by
  cases l with
  | nil => cases hm
  | cons y ys =>
    cases hm
    rcases foldl_min_eq_or_mem ys y with h | h
    · rw [h]
      exact List.mem_cons_self y ys
    · exact List.mem_cons.mpr (Or.inr h)

theorem init_le_foldl_max (l : List ℚ) (a : ℚ) : a ≤ l.foldl max a := by
  induction l generalizing a with
  | nil => exact le_refl a
  | cons x xs ih =>
    rw [List.foldl_cons]
    exact le_trans (le_max_left a x) (ih (max a x))

theorem mem_le_foldl_max (l : List ℚ) (a x : ℚ) (hx : x ∈ l) : x ≤ l.foldl max a := by
  induction l generalizing a with
  | nil => cases hx
  | cons y ys ih =>
    rw [List.foldl_cons]
    rcases List.mem_cons.mp hx with h | h
    · subst h
      exact le_trans (le_max_right a x) (init_le_foldl_max ys (max a x))
    · exact ih (max a y) h

theorem foldl_max_eq_or_mem (l : List ℚ) (a : ℚ) : l.foldl max a = a ∨ l.foldl max a ∈ l := by
  induction l generalizing a with
  | nil => exact Or.inl rfl
  | cons y ys ih =>
    rw [List.foldl_cons]
    rcases ih (max a y) with h | h
    · rcases max_choice a y with hm | hm
      · exact Or.inl (h.trans hm)
      · exact Or.inr (List.mem_cons.mpr (Or.inl (h.trans hm)))
    · exact Or.inr (List.mem_cons.mpr (Or.inr h))

theorem le_listMax (l : List ℚ) (m x : ℚ) (hm : listMax l = some m) (hx : x ∈ l) : x ≤ m := by
  cases l with
  | nil => cases hm
  | cons y ys =>
    cases hm
    rcases List.mem_cons.mp hx with h | h
    · subst h
      exact init_le_foldl_max ys x
    · exact mem_le_foldl_max ys y x h

theorem listMax_mem (l : List ℚ) (m : ℚ) (hm : listMax l = some m) : m ∈ l := by
  cases l with
  | nil => cases hm
  | cons y ys =>
    cases hm
    rcases foldl_max_eq_or_mem ys y with h | h
    · rw [h]
      exact List.mem_cons_self y ys
    · exact List.mem_cons.mpr (Or.inr h)

theorem window_subset (xs : List ℚ) (w1 w2 i : ℕ) (h : w1 ≤ w2) :
    window xs w1 i ⊆ window xs w2 i := by
  intro x hx
  unfold window at hx ⊢
  have e : i + 1 - w1 = (i + 1 - w2) + (i + 1 - w1 - (i + 1 - w2)) := by omega
  rw [e, ← List.drop_drop] at hx
  exact List.drop_subset _ _ hx

theorem self_mem_window (xs : List ℚ) (w i : ℕ) (hw : 1 ≤ w) (hi : i < xs.length) :
    xs.getD i 0 ∈ window xs w i := by
  unfold window
  have h2 : ((xs.take (i + 1)).drop (i + 1 - w))[i - (i + 1 - w)]? = some (xs.getD i 0) := by
    rw [List.getElem?_drop]
    have e : i + 1 - w + (i - (i + 1 - w)) = i := by omega
    rw [e, List.getElem?_take_of_lt (Nat.lt_succ_self i), List.getElem?_eq_getElem hi,
      List.getD_eq_getElem xs 0 hi]
  exact List.getElem?_mem h2

theorem rollingMin_touch_mono (xs : List ℚ) (w1 w2 i : ℕ) (h12 : w1 ≤ w2) (h1 : 1 ≤ w1)
    (hx : rollingMin xs w2 i = some (xs.getD i 0)) :
    rollingMin xs w1 i = some (xs.getD i 0) := by
  unfold rollingMin at hx ⊢
  by_cases hg : w2 ≤ i + 1 ∧ i < xs.length
  · rw [if_pos hg] at hx
    rw [if_pos ⟨le_trans h12 hg.1, hg.2⟩]
    have hmem : xs.getD i 0 ∈ window xs w1 i := self_mem_window xs w1 i h1 hg.2
    obtain ⟨m, hm⟩ : ∃ m, listMin (window xs w1 i) = some m := by
      cases hwin : window xs w1 i with
      | nil =>
        rw [hwin] at hmem
        cases hmem
      | cons y ys => exact ⟨_, rfl⟩
    have hle : m ≤ xs.getD i 0 := listMin_le _ _ _ hm hmem
    have hge : xs.getD i 0 ≤ m :=
      listMin_le _ _ _ hx (window_subset xs w1 w2 i h12 (listMin_mem _ _ hm))
    rw [hm, le_antisymm hle hge]
  · rw [if_neg hg] at hx
    cases hx

theorem rollingMax_touch_mono (xs : List ℚ) (w1 w2 i : ℕ) (h12 : w1 ≤ w2) (h1 : 1 ≤ w1)
    (hx : rollingMax xs w2 i = some (xs.getD i 0)) :
    rollingMax xs w1 i = some (xs.getD i 0) := by
  unfold rollingMax at hx ⊢
  by_cases hg : w2 ≤ i + 1 ∧ i < xs.length
  · rw [if_pos hg] at hx
    rw [if_pos ⟨le_trans h12 hg.1, hg.2⟩]
    have hmem : xs.getD i 0 ∈ window xs w1 i := self_mem_window xs w1 i h1 hg.2
    obtain ⟨m, hm⟩ : ∃ m, listMax (window xs w1 i) = some m := by
      cases hwin : window xs w1 i with
      | nil =>
        rw [hwin] at hmem
        cases hmem
      | cons y ys => exact ⟨_, rfl⟩
    have hle : xs.getD i 0 ≤ m := le_listMax _ _ _ hm hmem
    have hge : m ≤ xs.getD i 0 :=
      le_listMax _ _ _ hx (window_subset xs w1 w2 i h12 (listMax_mem _ _ hm))
    rw [hm, le_antisymm hge hle]
  · rw [if_neg hg] at hx
    cases hx

/-! ## Reachability invariants -/

theorem exitPhase_trades (cfg : Config) (d : PriceData) (i : ℕ) (s : StratState) :
    (exitPhase cfg d i s).trades = s.trades.filter (fun p => !exitCond cfg d i p) := rfl

theorem exitPhase_lastS1Win (cfg : Config) (d : PriceData) (i : ℕ) (s : StratState) :
    (exitPhase cfg d i s).lastS1Win = s.lastS1Win := rfl

/-- The run invariant: the last-trade filter flag is never set (lines 37, 54
and 57 are the only assignments and all write `False`), and every open
position was opened by a system-1 entry branch. -/
def Inv (s : StratState) : Prop :=
  s.lastS1Win = false ∧ ∀ p ∈ s.trades, p.sys1 = true

theorem pyramid_tags (cfg : Config) (price a equity : ℚ) (rest : List Position) :
    ∀ acc : List Position, (∀ p ∈ rest, p.sys1 = true) → (∀ p ∈ acc, p.sys1 = true) →
      ∀ p ∈ pyramid cfg price a equity rest acc, p.sys1 = true := by
  induction rest with
  | nil =>
    intro acc _ hacc
    simpa [pyramid] using hacc
  | cons t ts ih =>
    intro acc hrest hacc
    have ht : t.sys1 = true := hrest t (List.mem_cons_self t ts)
    have hts : ∀ p ∈ ts, p.sys1 = true := fun p hp => hrest p (List.mem_cons_of_mem t hp)
    simp only [pyramid]
    split_ifs with h1 h2 h3
    · refine ih _ hts ?_
      intro p hp
      rcases List.mem_append.mp hp with h | h
      · exact hacc p h
      · rcases List.mem_singleton.mp h with rfl
        simpa [mkPos] using ht
    · refine ih _ hts ?_
      intro p hp
      rcases List.mem_append.mp hp with h | h
      · exact hacc p h
      · rcases List.mem_singleton.mp h with rfl
        simpa [mkPos] using ht
    · exact ih _ hts hacc
    · exact ih _ hts hacc

theorem pyramid_length_le (cfg : Config) (price a equity : ℚ) (rest : List Position) :
    ∀ acc : List Position, acc.length ≤ cfg.unit_limit →
      (pyramid cfg price a equity rest acc).length ≤ cfg.unit_limit := by
  induction rest with
  | nil =>
    intro acc hacc
    simpa [pyramid] using hacc
  | cons t ts ih =>
    intro acc hacc
    simp only [pyramid]
    split_ifs with h1 h2 h3
    · refine ih _ ?_
      simp only [List.length_append, List.length_singleton]
      omega
    · refine ih _ ?_
      simp only [List.length_append, List.length_singleton]
      omega
    · exact ih _ hacc
    · exact ih _ hacc

theorem stepBar_inv (cfg : Config) (d : PriceData) (i : ℕ) (s : StratState)
    (h1 : 1 ≤ cfg.sys1_entry) (h12 : cfg.sys1_entry ≤ cfg.sys2_entry) (hs : Inv s) :
    Inv (stepBar cfg d i s) := by
  have hwin : (exitPhase cfg d i s).lastS1Win = false := by
    rw [exitPhase_lastS1Win]
    exact hs.1
  have htags : ∀ p ∈ (exitPhase cfg d i s).trades, p.sys1 = true := by
    intro p hp
    rw [exitPhase_trades] at hp
    exact hs.2 p (List.mem_of_mem_filter hp)
  simp only [stepBar]
  split_ifs with hempty hc1 hc2 hc3 hc4
  · exact ⟨rfl, by simp [mkPos]⟩
  · exact ⟨rfl, by simp [mkPos]⟩
  · exact absurd ⟨rollingMax_touch_mono d.close cfg.sys1_entry cfg.sys2_entry i h12 h1 hc3,
      hwin⟩ hc1
  · exact absurd ⟨rollingMin_touch_mono d.close cfg.sys1_entry cfg.sys2_entry i h12 h1 hc4,
      hwin⟩ hc2
  · exact ⟨hwin, htags⟩
  · exact ⟨hwin, pyramid_tags cfg (priceAt d i) ((atrVal cfg d).getD 0)
      (exitPhase cfg d i s).equity (exitPhase cfg d i s).trades
      (exitPhase cfg d i s).trades htags htags⟩

theorem stateAtFrom_zero (cfg : Config) (d : PriceData) (c : Bool) :
    stateAtFrom cfg d c 0 = initState cfg c := rfl

theorem stateAtFrom_succ (cfg : Config) (d : PriceData) (c : Bool) (k : ℕ) :
    stateAtFrom cfg d c (k + 1)
      = stepBar cfg d (startBar cfg + k) (stateAtFrom cfg d c k) := by
  unfold stateAtFrom
  rw [List.range'_concat, List.foldl_append]
  simp

theorem stateAtFrom_inv (cfg : Config) (d : PriceData) (c : Bool)
    (h1 : 1 ≤ cfg.sys1_entry) (h12 : cfg.sys1_entry ≤ cfg.sys2_entry) :
    ∀ k, Inv (stateAtFrom cfg d c k) := by
  intro k
  induction k with
  | zero =>
    refine ⟨rfl, ?_⟩
    intro p hp
    cases hp
  | succ k ih =>
    rw [stateAtFrom_succ]
    exact stepBar_inv cfg d (startBar cfg + k) _ h1 h12 ih

theorem stepBar_length (cfg : Config) (d : PriceData) (i : ℕ) (s : StratState)
    (hlim : 1 ≤ cfg.unit_limit) (hs : s.trades.length ≤ cfg.unit_limit) :
    (stepBar cfg d i s).trades.length ≤ cfg.unit_limit := by
  have hfil : (exitPhase cfg d i s).trades.length ≤ cfg.unit_limit := by
    rw [exitPhase_trades]
    exact le_trans (List.length_filter_le _ _) hs
  simp only [stepBar]
  split_ifs with hempty hc1 hc2 hc3 hc4
  · simpa using hlim
  · simpa using hlim
  · simpa using hlim
  · simpa using hlim
  · exact hfil
  · exact pyramid_length_le cfg (priceAt d i) ((atrVal cfg d).getD 0)
      (exitPhase cfg d i s).equity (exitPhase cfg d i s).trades
      (exitPhase cfg d i s).trades hfil

/-! ## Claim theorems -/

/-- C1: the claim says every indicator value at index `i` depends only on
bars `0..i`.  The ATR indicator violates it: `dLook` and `dLook2` agree on
bars `0..19`, yet the ATR consulted at bar 19 differs (1 versus 10),
because the `init` lambda reads the last `atr_periods` bars of the whole
table. -/
theorem C1_atr_lookahead :
    agreesUpTo dLook dLook2 19
      ∧ atrRollingApply defaultConfig dLook 19 ≠ atrRollingApply defaultConfig dLook2 19
      ∧ atrVal defaultConfig dLook ≠ atrVal defaultConfig dLook2 := by
  refine ⟨?_, ?_, ?_⟩ <;> decide

/-- C2: the claim states the spec's ATR (mean of trailing per-bar True
Ranges using the previous close).  On `dTR` the spec ATR at bar 20 is 2,
but the source's ATR value is 21: `calc_TR` ignores the rolling window and
the previous close, returning the single largest absolute difference over
the last 20 bars of the whole table. -/
theorem C2_atr_formula :
    specATR defaultConfig.atr_periods dTR 20 = some 2
      ∧ atrRollingApply defaultConfig dTR 20 = some 21
      ∧ atrVal defaultConfig dTR = some 21 := by
  refine ⟨?_, ?_, ?_⟩ <;> decide

/-- C3: on every reachable state, a position is closed exactly when its
stop is breached or the price touches the exit channel of the system that
opened it.  This holds because (i) every reachable position is a system-1
position (a 55-bar channel touch is also a 20-bar channel touch and the
filter flag is permanently `False`, so the system-2 entry branches are
dead code) and (ii) a system-2 exit-channel touch (20-bar window) is
always simultaneously a system-1 exit-channel touch (10-bar sub-window),
so the source's extra disjunct never fires alone. -/
theorem C3_exit_own_system (d : PriceData) (c : Bool) (k i : ℕ) (p : Position)
    (hp : p ∈ (stateAtFrom defaultConfig d c k).trades) :
    exitCond defaultConfig d i p = true ↔ exitSpecProp defaultConfig d i p := by
  have hinv := stateAtFrom_inv defaultConfig d c (by norm_num [defaultConfig])
    (by norm_num [defaultConfig]) k
  have hsys : p.sys1 = true := hinv.2 p hp
  unfold exitCond exitSpecProp
  cases hL : p.isLong with
  | false =>
    simp only [hL, Bool.false_eq_true, if_false, decide_eq_true_eq, hsys,
      eq_self_iff_true, true_and, Bool.true_eq_false, false_and, or_false]
    constructor
    · rintro (h | h | h)
      · exact Or.inl h
      · exact Or.inr h
      · exact Or.inr (rollingMax_touch_mono d.close defaultConfig.sys1_exit
          defaultConfig.sys2_exit i (by norm_num [defaultConfig]) (by norm_num [defaultConfig]) h)
    · rintro (h | h)
      · exact Or.inl h
      · exact Or.inr (Or.inl h)
  | true =>
    simp only [hL, if_true, decide_eq_true_eq, hsys,
      eq_self_iff_true, true_and, Bool.true_eq_false, false_and, or_false]
    constructor
    · rintro (h | h | h)
      · exact Or.inl h
      · exact Or.inr h
      · exact Or.inr (rollingMin_touch_mono d.close defaultConfig.sys1_exit
          defaultConfig.sys2_exit i (by norm_num [defaultConfig]) (by norm_num [defaultConfig]) h)
    · rintro (h | h)
      · exact Or.inl h
      · exact Or.inr (Or.inl h)

/-- C3 witness: the long opened at bar 54 of `wD3` is open after one
processed bar, and the exit characterization applies to it at bar 55. -/
theorem C3_witness :
    (⟨true, 154, 100, 152, true⟩ : Position) ∈ (stateAtFrom defaultConfig wD3 false 1).trades
      ∧ (exitCond defaultConfig wD3 55 ⟨true, 154, 100, 152, true⟩ = true
          ↔ exitSpecProp defaultConfig wD3 55 ⟨true, 154, 100, 152, true⟩) :=
  ⟨by decide, C3_exit_own_system wD3 false 1 55 ⟨true, 154, 100, 152, true⟩ (by decide)⟩

/-- C4 counterexample: on `wD4` the system-1 long of bar 54 is stopped out
at bar 55 for a loss, and at bar 56 the price 155 touches the 20-bar
rolling high with that loss as the previous trade — the claim demands the
entry be skipped, but the source enters (the filter skips only after a
recorded win, and the flag is never set). -/
theorem C4_counterexample : ¬ C4_claim_statement := by
  intro h
  have h2 := h wD4 2 (by decide) (by decide) (by decide)
  revert h2
  decide

/-- C4 (amended): when the strategy is flat after the exit check, the entry
phase behaves as `entryAmended` describes: system-1 channel touches open a
position with stop `price ∓ risk_level * ATR` unless the previous system-1
trade was recorded as a *win* (`last_s1_win`); system 2 is consulted only
when no system-1 entry fired. -/
theorem C4_entry_amended (cfg : Config) (d : PriceData) (i : ℕ) (s : StratState)
    (hflat : (exitPhase cfg d i s).trades = []) :
    (stepBar cfg d i s).trades
      = entryAmended cfg d i (exitPhase cfg d i s).equity (exitPhase cfg d i s).lastS1Win := by
  simp only [stepBar, entryAmended, hflat, List.isEmpty_nil, if_true]
  by_cases h1 : rollingMax d.close cfg.sys1_entry i = some (priceAt d i)
    <;> by_cases h2 : (exitPhase cfg d i s).lastS1Win = false
    <;> by_cases h3 : rollingMin d.close cfg.sys1_entry i = some (priceAt d i)
    <;> by_cases h4 : rollingMax d.close cfg.sys2_entry i = some (priceAt d i)
    <;> by_cases h5 : rollingMin d.close cfg.sys2_entry i = some (priceAt d i)
    <;> simp [h1, h2, h3, h4, h5, hflat]

/-- C4 amended witness: at bar 56 of `wD4`, flat after the stop-out, the
step's trades equal the amended entry table's output (a fresh long). -/
theorem C4_amended_witness :
    (stepBar defaultConfig wD4 56 (stateAtFrom defaultConfig wD4 false 2)).trades
      = entryAmended defaultConfig wD4 56
          (exitPhase defaultConfig wD4 56 (stateAtFrom defaultConfig wD4 false 2)).equity
          (exitPhase defaultConfig wD4 56 (stateAtFrom defaultConfig wD4 false 2)).lastS1Win :=
  C4_entry_amended defaultConfig wD4 56 (stateAtFrom defaultConfig wD4 false 2) (by decide)

/-- C5 counterexample: on `wD5` at bar 56 (price 155.5, open units entered
at 154 and 155, ATR 1) the source adds a unit because the *older* unit's
entry has been cleared by one ATR, although the most recent unit's entry
has not — contradicting the claim that units are added only on a one-ATR
move from the most recent unit. -/
theorem C5_counterexample : ¬ C5_claim_statement := by
  intro h
  have h2 := (h wD5 2 (by decide)).2
  revert h2
  decide

/-- Bridge: the source's pyramiding loop equals the amended description
(scan all open trades, count-guarded, one unit per qualifying trade). -/
theorem pyramid_eq_amended (cfg : Config) (price a equity : ℚ) (rest : List Position) :
    ∀ acc : List Position,
      pyramid cfg price a equity rest acc
        = acc ++ pyramidAmended cfg price a equity rest acc.length := by
  induction rest with
  | nil =>
    intro acc
    simp [pyramid, pyramidAmended]
  | cons t ts ih =>
    intro acc
    simp only [pyramid, pyramidAmended]
    split_ifs with h1 h2 h3
    · rw [ih]
      simp [List.length_append]
    · rw [ih]
      simp [List.length_append]
    · exact ih acc
    · exact ih acc

/-- C5 (amended): on every bar with a position still open after the exit
check, the trades after the bar are the surviving trades followed by the
units `pyramidAmended` adds: one unit for each open trade (not only the
most recent) whose entry price has been bettered by one ATR, while the
running unit count stays below `unit_limit` — so several units can be
added on a single bar. -/
theorem C5_pyramiding_amended (cfg : Config) (d : PriceData) (i : ℕ) (s : StratState)
    (hne : (exitPhase cfg d i s).trades ≠ []) :
    (stepBar cfg d i s).trades
      = (exitPhase cfg d i s).trades
        ++ pyramidAmended cfg (priceAt d i) ((atrVal cfg d).getD 0) (exitPhase cfg d i s).equity
            (exitPhase cfg d i s).trades (exitPhase cfg d i s).trades.length := by
  simp only [stepBar]
  rw [if_neg (by simpa [List.isEmpty_iff] using hne)]
  exact pyramid_eq_amended cfg (priceAt d i) ((atrVal cfg d).getD 0)
    (exitPhase cfg d i s).equity (exitPhase cfg d i s).trades (exitPhase cfg d i s).trades

/-- C5 amended witness: at bar 56 of `wD5` the pyramiding pass appends
exactly the amended description's unit (keyed to the older trade). -/
theorem C5_amended_witness :
    (stepBar defaultConfig wD5 56 (stateAtFrom defaultConfig wD5 false 2)).trades
      = (exitPhase defaultConfig wD5 56 (stateAtFrom defaultConfig wD5 false 2)).trades
        ++ pyramidAmended defaultConfig (priceAt wD5 56) ((atrVal defaultConfig wD5).getD 0)
            (exitPhase defaultConfig wD5 56 (stateAtFrom defaultConfig wD5 false 2)).equity
            (exitPhase defaultConfig wD5 56 (stateAtFrom defaultConfig wD5 false 2)).trades
            (exitPhase defaultConfig wD5 56 (stateAtFrom defaultConfig wD5 false 2)).trades.length :=
  C5_pyramiding_amended defaultConfig wD5 56 (stateAtFrom defaultConfig wD5 false 2) (by decide)

/-- C6: the position size is exactly
`floor(risk_fraction * equity / (risk_level * ATR))` and is nonnegative for
nonnegative equity and positive ATR. -/
theorem C6_size_position (e a : ℚ) (ha : 0 < a) (he : 0 ≤ e) :
    _size_position defaultConfig e a = sizeSpec (2/100) e 2 a
      ∧ 0 ≤ _size_position defaultConfig e a := by
  have hfloor : ∀ q : ℚ, (Rat.floor q : ℤ) = ⌊q⌋ := fun q => by
    rw [Rat.floor_def', Rat.floor_def]
  constructor
  · show ((Rat.floor (defaultConfig.r_max * e / (defaultConfig.risk_level * a)) : ℤ) : ℚ) = _
    rw [hfloor]
    rfl
  · show (0 : ℚ) ≤ ((Rat.floor (defaultConfig.r_max * e / (defaultConfig.risk_level * a)) : ℤ) : ℚ)
    rw [hfloor]
    have hX : 0 ≤ defaultConfig.r_max * e / (defaultConfig.risk_level * a) := by
      apply div_nonneg
      · exact mul_nonneg (by norm_num [defaultConfig]) he
      · have hpos : (0 : ℚ) < defaultConfig.risk_level * a :=
          mul_pos (by norm_num [defaultConfig]) ha
        exact le_of_lt hpos
    exact_mod_cast Int.floor_nonneg.mpr hX

/-- C6 witness: with equity 10000, ATR 10, the size is 10, matching the
spec's worked example and the source's unit test. -/
theorem C6_size_position_witness :
    _size_position defaultConfig 10000 10 = sizeSpec (2/100) 10000 2 10
      ∧ 0 ≤ _size_position defaultConfig 10000 10
      ∧ _size_position defaultConfig 10000 10 = 10 :=
  ⟨(C6_size_position 10000 10 (by norm_num) (by norm_num)).1,
   (C6_size_position 10000 10 (by norm_num) (by norm_num)).2,
   by decide⟩

/-- C7: the number of simultaneously open positions never exceeds
`unit_limit` in any reachable state, for any data, configuration with a
positive limit, and carried flag: entries from flat open one unit and the
pyramiding pass re-checks the running count before every additional unit. -/
theorem C7_unit_limit (cfg : Config) (d : PriceData) (c : Bool) (k : ℕ)
    (hlim : 1 ≤ cfg.unit_limit) :
    (stateAtFrom cfg d c k).trades.length ≤ cfg.unit_limit := by
  induction k with
  | zero =>
    rw [stateAtFrom_zero]
    exact Nat.zero_le _
  | succ k ih =>
    rw [stateAtFrom_succ]
    exact stepBar_length cfg d (startBar cfg + k) _ hlim ih

/-- C7 witness: after three processed bars of `wD5` (three units open) the
bound holds at the default limit of 5. -/
theorem C7_witness :
    (stateAtFrom defaultConfig wD5 false 3).trades.length ≤ defaultConfig.unit_limit :=
  C7_unit_limit defaultConfig wD5 false 3 (by norm_num [defaultConfig])

/-- C8: a series shorter than the largest indicator window
(`max(sys2_entry, atr_periods)` = 55 at the default configuration) makes
the simulation fail with `InsufficientDataError` before producing any
report. -/
theorem C8_insufficient_data (d : PriceData)
    (h : d.close.length < max defaultConfig.sys2_entry defaultConfig.atr_periods) :
    run_backtest defaultConfig d = Except.error SimError.insufficientData := by
  unfold run_backtest runBacktestCarry
  rw [if_pos]
  have hmax : maxWindow defaultConfig = max defaultConfig.sys2_entry defaultConfig.atr_periods := by
    decide
  rw [hmax]
  exact h

/-- C8 witness: the 10-bar table raises the error. -/
theorem C8_witness :
    run_backtest defaultConfig dShort = Except.error SimError.insufficientData :=
  C8_insufficient_data dShort (by decide)

/-- C9: the backtest is a pure function of the price table and the
configuration — in particular the only cross-run strategy state, the
`last_s1_win` attribute, is overwritten by `init` (line 37), so two runs
on identical inputs return the identical closed-trade ledger and
statistics report, whatever flag value the strategy object carried in. -/
theorem C9_deterministic (cfg : Config) (d : PriceData) (c1 c2 : Bool) :
    runBacktestCarry cfg d c1 = runBacktestCarry cfg d c2 := by
  unfold runBacktestCarry stateAtFrom initState
  rfl

/-- C10: the `last_s1_win` flag is `False` in every reachable state (it is
initialized to `False` and every assignment writes `False`), and therefore
the system-1 "last trade filter" never suppresses any entry: whenever the
strategy is flat after the exit check and the system-1 entry price
condition holds, an order is placed — a touch of the `sys1_entry`-bar
rolling high opens a long, and a touch of the rolling low (when the
rolling-high branch did not fire first in the source's `if/elif` chain)
opens a short. -/
theorem C10_filter_never_suppresses (d : PriceData) (c : Bool) (k i : ℕ)
    (hflat : (exitPhase defaultConfig d i (stateAtFrom defaultConfig d c k)).trades = []) :
    (stateAtFrom defaultConfig d c k).lastS1Win = false
      ∧ (rollingMax d.close defaultConfig.sys1_entry i = some (priceAt d i) →
          (stepBar defaultConfig d i (stateAtFrom defaultConfig d c k)).trades
            = [mkPos defaultConfig true (priceAt d i) ((atrVal defaultConfig d).getD 0)
                (exitPhase defaultConfig d i (stateAtFrom defaultConfig d c k)).equity true])
      ∧ (rollingMax d.close defaultConfig.sys1_entry i ≠ some (priceAt d i) →
          rollingMin d.close defaultConfig.sys1_entry i = some (priceAt d i) →
          (stepBar defaultConfig d i (stateAtFrom defaultConfig d c k)).trades
            = [mkPos defaultConfig false (priceAt d i) ((atrVal defaultConfig d).getD 0)
                (exitPhase defaultConfig d i (stateAtFrom defaultConfig d c k)).equity true]) := by
  have hinv := stateAtFrom_inv defaultConfig d c (by norm_num [defaultConfig])
    (by norm_num [defaultConfig]) k
  have hwin : (exitPhase defaultConfig d i (stateAtFrom defaultConfig d c k)).lastS1Win = false := by
    rw [exitPhase_lastS1Win]
    exact hinv.1
  refine ⟨hinv.1, ?_, ?_⟩
  · intro hsig
    simp only [stepBar, hflat, List.isEmpty_nil, if_true]
    rw [if_pos ⟨hsig, hwin⟩]
  · intro hnl hsig
    simp only [stepBar, hflat, List.isEmpty_nil, if_true]
    rw [if_neg (fun h => hnl h.1), if_pos ⟨hsig, hwin⟩]

/-- C10 witness: at bar 54 of `wD3` (flat, price 154 touches the 20-bar
rolling high) the long entry fires, and at bar 54 of the falling table
`wD10s` (flat, price 46 touches the 20-bar rolling low and not the rolling
high) the short entry fires. -/
theorem C10_witness :
    (stateAtFrom defaultConfig wD3 false 0).lastS1Win = false
      ∧ (stepBar defaultConfig wD3 54 (stateAtFrom defaultConfig wD3 false 0)).trades
          = [mkPos defaultConfig true (priceAt wD3 54) ((atrVal defaultConfig wD3).getD 0)
              (exitPhase defaultConfig wD3 54 (stateAtFrom defaultConfig wD3 false 0)).equity true]
      ∧ (stepBar defaultConfig wD10s 54 (stateAtFrom defaultConfig wD10s false 0)).trades
          = [mkPos defaultConfig false (priceAt wD10s 54) ((atrVal defaultConfig wD10s).getD 0)
              (exitPhase defaultConfig wD10s 54 (stateAtFrom defaultConfig wD10s false 0)).equity
              true] :=
  ⟨(C10_filter_never_suppresses wD3 false 0 54 (by decide)).1,
   (C10_filter_never_suppresses wD3 false 0 54 (by decide)).2.1 (by decide),
   (C10_filter_never_suppresses wD10s false 0 54 (by decide)).2.2 (by decide) (by decide)⟩

end Turtle
